import Mathlib

/-!
Verification of the aco-scripts repository against its specification.

The development shallowly embeds the relevant Python functions:
  - `util.py` : merge-tool selection in `_do_merge`, the no-clobber check of
    `generate_pdf`, and `calc_scale`;
  - `rename_yaiglobal_ocr.py` : `clean_text`, the filename-format matchers,
    `path_grep` and `rename_files`;
  - `process_yaiglobal_batch.py` : `create_directory_checksum` and
    `verify_directory_checksum`.

Python strings are modelled as `List Char` (one `Char` per code point; file
bytes are likewise one `Char` per byte, which is exact for the ASCII data the
claims are about).  Python's stable `sorted` is modelled by a stable insertion
sort.  External processes (hashing aside, which is a parameter) are modelled by
their observable control flow.
-/

/- ================= Definitions (shallow embedding) ================= -/

/-- Characters of a Python string / bytes of a file. -/
abbrev LC := List Char

/-- Strip a literal front part; `some rest` when `p` is a front part of `s`
(models `re` literal matching and Python `str.startswith` followed by a slice). -/
def stripPre : LC → LC → Option LC
  | [], s => some s
  | _ :: _, [] => none
  | c :: p, d :: s => if c = d then stripPre p s else none

/-- Python `str.endswith` on the `List Char` model. -/
def endsWith (suf s : LC) : Bool := List.isSuffixOf suf s

/-- `s[:-n]` for a nonnegative `n` (Python slice dropping the last `n` chars). -/
def dropLastN (n : Nat) (s : LC) : LC := s.take (s.length - n)

/-- Stable insertion of `a` into `l`: `a` goes before the first element that is
not strictly below it.  Together with `ssort` this models Python's stable
`sorted`. -/
def sinsert (le : α → α → Bool) (a : α) : List α → List α
  | [] => [a]
  | b :: bs => if le b a ∧ ¬ le a b then b :: sinsert le a bs else a :: b :: bs

/-- Stable sort by the boolean total preorder `le`; models Python `sorted`. -/
def ssort (le : α → α → Bool) : List α → List α
  | [] => []
  | a :: as => sinsert le a (ssort le as)

/-- Byte-wise (code-point-wise) comparison of Python strings, as used by
`sorted` on `str` values. -/
def lexLe : LC → LC → Bool
  | [], _ => true
  | _ :: _, [] => false
  | a :: as, b :: bs => if a < b then true else if b < a then false else lexLe as bs

/-- Availability of the external tools probed by `_do_merge`
(`shutil.which` results and the presence of the three PDFBox jars). -/
structure ToolEnv where
  qpdf : Option LC
  pdftk : Option LC
  java : Option LC
  pdfboxJarsPresent : Bool

/-- The merge tool `_do_merge` settles on. -/
inductive MergeTool
  | qpdf (path : LC)
  | pdftk (path : LC)
  | pdfbox (javaPath : LC)

deriving DecidableEq

/-- The `if qpdf: ... elif pdftk: ... elif java and jars: ... else raise`
cascade of `_do_merge`. -/
def selectMergeTool (env : ToolEnv) : Option MergeTool :=
  match env.qpdf with
  | some q => some (MergeTool.qpdf q)
  | none =>
    match env.pdftk with
    | some p => some (MergeTool.pdftk p)
    | none =>
      match env.java with
      | some j => if env.pdfboxJarsPresent then some (MergeTool.pdfbox j) else none
      | none => none

/-- The message of the `RuntimeError` raised when no merge tool is found. -/
def noMergeToolMsg : String := "No available PDF merge tool (qpdf, pdftk, or PDFBox)."

/-- Contents that can sit at the destination path of a merge. -/
inductive Doc
  | raw (id : Nat)
  | mergedFrom (inputs : List LC)

deriving DecidableEq

/-- External commands `_do_merge` spawns, in order. -/
inductive RunStep
  | mergeCmd (tool : MergeTool)
  | exiftoolStrip
  | qpdfLinearize

deriving DecidableEq

/-- Outcome of `_do_merge`. -/
inductive MergeOutcome
  | noTool (msg : String)
  | crashedLinearize (tool : MergeTool)
  | merged (tool : MergeTool)

deriving DecidableEq

/-- Shallow embedding of `_do_merge` (util.py).  After the concatenation and
the exiftool metadata strip, the linearization command is built as
`[qpdf, "--linearize", ...]` from the `shutil.which("qpdf")` probe result —
not from the selected tool.  When that probe returned `None`,
`subprocess.run` receives `None` as the program and raises, so the final
`shutil.move` onto the destination never happens.  The returned triple is
(outcome, destination contents afterwards, external commands run).
External commands themselves are assumed to succeed when their program
exists; `keep_sources` cleanup is irrelevant to the claims and omitted. -/
def do_merge (env : ToolEnv) (input_files : List LC) (dest : Option Doc) :
    MergeOutcome × Option Doc × List RunStep :=
  match selectMergeTool env with
  | none => (MergeOutcome.noTool noMergeToolMsg, dest, [])
  | some t =>
    match env.qpdf with
    | none =>
      (MergeOutcome.crashedLinearize t, dest, [RunStep.mergeCmd t, RunStep.exiftoolStrip])
    | some _ =>
      (MergeOutcome.merged t, some (Doc.mergedFrom input_files),
        [RunStep.mergeCmd t, RunStep.exiftoolStrip, RunStep.qpdfLinearize])

/-- How a `generate_pdf` call ends. -/
inductive GenOutcome
  | skippedExisting
  | countMismatch (nImg nHocr : Nat)
  | emptyInput
  | generated

deriving DecidableEq

/-- Shallow embedding of the control flow of `generate_pdf` (util.py): the
existing-output early return, the two `ValueError` guards, then the
resample/overlay/strip/linearize pipeline (whose successful run is collapsed
into `generated`; its page-level work is concurrent and not modelled here). -/
def generate_pdf (img_files hocr_files : List LC)
    (overwrite outputExists : Bool) : GenOutcome :=
  if ¬ overwrite ∧ outputExists then GenOutcome.skippedExisting
  else if img_files.length ≠ hocr_files.length then
    GenOutcome.countMismatch img_files.length hocr_files.length
  else if img_files.isEmpty then GenOutcome.emptyInput
  else GenOutcome.generated

/-- The data `calc_scale` reads off an opened image: `img.size` and
`img.info["dpi"]`.  Real arithmetic is modelled over `ℚ` (the Python code
computes with floats; the claim only asks for three-decimal precision). -/
structure ImgInfo where
  width : ℚ
  height : ℚ
  dpiX : ℚ
  dpiY : ℚ

/-- Shallow embedding of `calc_scale` (util.py): uses the pixel width and the
first component of the declared dpi pair. -/
def calc_scale (img : ImgInfo) (bbox_width target_dpi : ℚ) : ℚ :=
  (img.width / bbox_width) * (target_dpi / img.dpiX)

/-- Modelled from the spec: the scale formula (P ÷ W) × (T ÷ I) the claim
compares the code against. -/
def spec_scale (P W T I : ℚ) : ℚ := (P / W) * (T / I)

/-- Convenience: the code points of a string literal. -/
def lc (s : String) : LC := s.toList

/-- Shallow embedding of `clean_text`: `text.lstrip("﻿")` removes every
leading byte-order mark. -/
def clean_text (s : LC) : LC := s.dropWhile (fun c => c = '﻿')

/-- One `os.scandir` entry: its name and whether it is a regular file. -/
structure Dirent where
  name : LC
  isFile : Bool

deriving DecidableEq

/-- `entry.path` for a scan of `dirpath` (the directory path carries no
trailing slash, as the scripts obtain it from `os.path.realpath`). -/
def joinPath (dirpath n : LC) : LC := dirpath ++ '/' :: n

/-- Shallow embedding of `path_grep`: sort the directory entries by the
byte-order-mark-stripped name (Python `sorted` is stable; so is `ssort`) and
keep the paths of those satisfying `cond_func`. -/
def path_grep (dirpath : LC) (entries : List Dirent) (cond_func : Dirent → Bool) :
    List LC :=
  (((ssort (fun a b => lexLe (clean_text a.name) (clean_text b.name)) entries).filter
      cond_func).map (fun e => joinPath dirpath e.name))

/-- `DMAKER_SUFFIX = "_d.tif"`. -/
def dmakerSuffix : LC := ['_', 'd', '.', 't', 'i', 'f']

/-- Shallow embedding of `is_dmaker`. -/
def is_dmaker (e : Dirent) : Bool := endsWith dmakerSuffix e.name && e.isFile

/-- Exactly `k` ASCII digits (`\d` of the patterns; the filenames at issue are
ASCII), returning the rest of the input. -/
def takeDigits : Nat → LC → Option LC
  | 0, l => some l
  | _ + 1, [] => none
  | k + 1, c :: r => if c.isDigit then takeDigits k r else none

/-- The group `((afr|zbk)\d{2}|n\d{6})` of the NYU-format pattern. -/
def matchPageId (s : LC) : Option LC :=
  match stripPre ['a', 'f', 'r'] s with
  | some r => takeDigits 2 r
  | none =>
    match stripPre ['z', 'b', 'k'] s with
    | some r => takeDigits 2 r
    | none =>
      match stripPre ['n'] s with
      | some r => takeDigits 6 r
      | none => none

/-- `"_ocr."`. -/
def ocrDot : LC := ['_', 'o', 'c', 'r', '.']

def txtExt : LC := ['t', 'x', 't']

def htmlExt : LC := ['h', 't', 'm', 'l']

def hocrExt : LC := ['h', 'o', 'c', 'r']

/-- Shallow embedding of `is_nyu_format bookid ext`: the cleaned name matches
`^<bookid>_((afr|zbk)\d{2}|n\d{6})_ocr\.<ext>` (unanchored at the end, as in
the source) and the entry is a regular file. -/
def is_nyu_format (bookid ext : LC) (e : Dirent) : Bool :=
  (match stripPre (bookid ++ ['_']) (clean_text e.name) with
    | none => false
    | some r =>
      match matchPageId r with
      | none => false
      | some r2 => (stripPre (ocrDot ++ ext) r2).isSome) && e.isFile

/-- Shallow embedding of `is_yai_format bookid ext`: the cleaned name matches
`^<bookid>_\d{6}\.<ext>$` and the entry is a regular file. -/
def is_yai_format (bookid ext : LC) (e : Dirent) : Bool :=
  (match stripPre (bookid ++ ['_']) (clean_text e.name) with
    | none => false
    | some r =>
      match takeDigits 6 r with
      | none => false
      | some r2 => r2 == '.' :: ext) && e.isFile

/-- `os.path.basename`: everything after the last slash. -/
def basename (p : LC) : LC := (p.reverse.takeWhile (fun c => c ≠ '/')).reverse

/-- `os.path.dirname`: everything up to the last slash, with trailing slashes
stripped unless the result is all slashes. -/
def dirname (p : LC) : LC :=
  let head := (p.reverse.dropWhile (fun c => c ≠ '/')).reverse
  if head.all (fun c => c = '/') then head
  else (head.reverse.dropWhile (fun c => c = '/')).reverse

/-- Shallow embedding of `get_bookid`: the name of the parent of the source
entity data directory. -/
def get_bookid (se_dir : LC) : LC := basename (dirname se_dir)

/-- The destination path built from one dmaker image path `img`:
`os.path.join(yai_dir, os.path.basename(img[:-len("_d.tif")])) + "_ocr." + ext`. -/
def dmaker_dst (yai_dir img ext : LC) : LC :=
  joinPath yai_dir (basename (dropLastN 6 img)) ++ ocrDot ++ ext

/-- The raise sites of `rename_files`, with the data their messages carry. -/
inductive RenameErr
  | alreadyRenamed (yai_dir : LC) (files : List LC)
  | noDmaker (se_dir : LC)
  | noTxt (yai_dir : LC)
  | noHtml (yai_dir : LC)
  | txtCountMismatch (se_dir : LC) (nDmaker : Nat) (yai_dir : LC) (nSrc : Nat)
  | htmlCountMismatch (se_dir : LC) (nDmaker : Nat) (yai_dir : LC) (nSrc : Nat)
  | notWritable (yai_dir : LC)

deriving DecidableEq

/-- Result of a successful `rename_files` run: the (source, destination)
renames performed in order, plus the returned `(dmaker_imgs, dst_html)`. -/
structure RenameResult where
  renames : List (LC × LC)
  dmaker_imgs : List LC
  dst_html : List LC

deriving DecidableEq

deriving instance DecidableEq for Except

/-- Shallow embedding of `rename_files`.  `seEntries` and `yaiEntries` are the
scan results of `se_dir` and `yai_dir`; `writable` is the
`is_writable_and_executable(yai_dir)` probe.  Every raise happens before the
rename loop, so an `Except.error` leaves the directory untouched; `dry_run`
and `colorize` only affect logging and are not modelled. -/
def rename_files (se_dir yai_dir : LC) (seEntries yaiEntries : List Dirent)
    (check_perms writable : Bool) : Except RenameErr RenameResult :=
  let bookid := get_bookid se_dir
  let renamed := path_grep yai_dir yaiEntries (is_nyu_format bookid htmlExt) ++
    path_grep yai_dir yaiEntries (is_nyu_format bookid txtExt)
  if renamed ≠ [] then Except.error (RenameErr.alreadyRenamed yai_dir renamed)
  else
    let src_txt := path_grep yai_dir yaiEntries (is_yai_format bookid txtExt)
    let src_html := path_grep yai_dir yaiEntries (is_yai_format bookid htmlExt)
    let dmaker_imgs := path_grep se_dir seEntries is_dmaker
    if dmaker_imgs = [] then Except.error (RenameErr.noDmaker se_dir)
    else
      let dst_txt := dmaker_imgs.map (fun img => dmaker_dst yai_dir img txtExt)
      let dst_html := dmaker_imgs.map (fun img => dmaker_dst yai_dir img hocrExt)
      if src_txt = [] then Except.error (RenameErr.noTxt yai_dir)
      else if src_html = [] then Except.error (RenameErr.noHtml yai_dir)
      else if src_txt.length ≠ dst_txt.length then
        Except.error
          (RenameErr.txtCountMismatch se_dir dst_txt.length yai_dir src_txt.length)
      else if src_html.length ≠ dst_html.length then
        Except.error
          (RenameErr.htmlCountMismatch se_dir dst_html.length yai_dir src_html.length)
      else if check_perms && !writable then
        Except.error (RenameErr.notWritable yai_dir)
      else
        Except.ok
          ⟨(src_txt ++ src_html).zip (dst_txt ++ dst_html), dmaker_imgs, dst_html⟩

/-- The concrete master directory entries used by several counterexamples:
one dmaker image `book_afr01_d.tif` under `/r/book/aux`. -/
def seEntriesEx : List Dirent := [⟨lc "book_afr01_d.tif", true⟩]

/-- OCR directory holding an already-renamed canonical hOCR file alongside the
yet-unrenamed YaiGlobal pair for the single page. -/
def yaiEntriesHocr : List Dirent :=
  [⟨lc "book_afr01_ocr.hocr", true⟩, ⟨lc "book_000001.html", true⟩,
    ⟨lc "book_000001.txt", true⟩]

/-- Three dmaker images, deliberately listed out of order. -/
def seEntries3 : List Dirent :=
  [⟨lc "book_n000002_d.tif", true⟩, ⟨lc "book_n000001_d.tif", true⟩,
    ⟨lc "book_n000003_d.tif", true⟩]

/-- Three YaiGlobal OCR pairs, deliberately listed out of order. -/
def yaiEntries3 : List Dirent :=
  [⟨lc "book_000002.html", true⟩, ⟨lc "book_000001.txt", true⟩,
    ⟨lc "book_000003.html", true⟩, ⟨lc "book_000001.html", true⟩,
    ⟨lc "book_000003.txt", true⟩, ⟨lc "book_000002.txt", true⟩]

/-- Python whitespace (`str.strip`, `str.split()` and the `\s` class, on the
ASCII data at hand). -/
def pySpace (c : Char) : Bool :=
  c = ' ' || c = '\t' || c = '\n' || c = '\r' || c = '\x0b' || c = '\x0c'

/-- A name or digest that round-trips through the manifest text format:
nonempty printable ASCII with no whitespace. -/
def GoodLC (s : LC) : Prop := s ≠ [] ∧ ∀ c ∈ s, 32 < c.toNat ∧ c.toNat < 127

instance : DecidablePred GoodLC := fun s => by unfold GoodLC; infer_instance

/-- A regular file directly under the directory being manifested: name,
content bytes and integral part of the mtime (the fractional part of the
Python float never reaches any parser). -/
structure FsFile where
  name : LC
  content : LC
  mtime : Nat

deriving DecidableEq

def cksName : LC := lc "CHECKSUMS.txt"

def cinfName : LC := lc "CACHEINFO.txt"

/-- Sort order of `sorted(dirpath.glob("*"))`. -/
def fileNameLe (a b : FsFile) : Bool := lexLe a.name b.name

/-- The files `create_directory_checksum` records: every regular file, in
sorted order, except the two manifest files themselves. -/
def coveredFiles (dir : List FsFile) : List FsFile :=
  (ssort fileNameLe dir).filter (fun f => !(f.name == cksName || f.name == cinfName))

/-- Decimal rendering of a natural number (Python `str`). -/
def digitChar (d : Nat) : Char := Char.ofNat (48 + d)

/-- Fuel-based digit expansion, so that the kernel can evaluate it. -/
def natToCharsAux : Nat → Nat → LC
  | 0, _ => []
  | fuel + 1, n =>
    if n < 10 then [digitChar n]
    else natToCharsAux fuel (n / 10) ++ [digitChar (n % 10)]

def natToChars (n : Nat) : LC := natToCharsAux (n + 1) n

/-- Value of a run of decimal digits (Python `int`). -/
def digitsVal (ds : LC) : Nat := ds.foldl (fun a c => 10 * a + (c.toNat - 48)) 0

/-- The text of `CHECKSUMS.txt`: one `<digest>  <name>\n` line per entry. -/
def encodeChecksums : List (LC × LC) → LC
  | [] => []
  | (d, n) :: rest => d ++ ' ' :: ' ' :: (n ++ '\n' :: encodeChecksums rest)

def sizeLit : LC := ['s', 'i', 'z', 'e', '=']

def mtimeLit : LC := ['m', 't', 'i', 'm', 'e', '=']

/-- One `CACHEINFO.txt` line body: `<name>  size=<size>  mtime=<mtime>`. -/
def cacheLineBody (n : LC) (size mtime : Nat) : LC :=
  n ++ ' ' :: ' ' ::
    (sizeLit ++ natToChars size ++ ' ' :: ' ' :: (mtimeLit ++ natToChars mtime))

/-- The text of `CACHEINFO.txt`. -/
def encodeCacheinfo : List FsFile → LC
  | [] => []
  | f :: rest => cacheLineBody f.name f.content.length f.mtime ++ '\n' :: encodeCacheinfo rest

/-- The manifest entries `create_directory_checksum` hashes. -/
def checksumEntries (hash : LC → LC) (dir : List FsFile) : List (LC × LC) :=
  (coveredFiles dir).map (fun f => (hash f.content, f.name))

/-- Shallow embedding of `create_directory_checksum`: the texts written to
`CHECKSUMS.txt` and `CACHEINFO.txt`.  `hash` abstracts
`hashlib.<algo>(...).hexdigest()`. -/
def create_directory_checksum (hash : LC → LC) (dir : List FsFile) : LC × LC :=
  (encodeChecksums (checksumEntries hash dir),
    encodeCacheinfo (coveredFiles dir))

/-- The directory right after `create_directory_checksum` ran on `dir`: the
original regular files, with any previous manifest files overwritten by the
freshly written pair. -/
def dirAfterBuild (hash : LC → LC) (dir : List FsFile) : List FsFile :=
  dir.filter (fun f => !(f.name == cksName || f.name == cinfName)) ++
    [⟨cksName, (create_directory_checksum hash dir).1, 0⟩,
      ⟨cinfName, (create_directory_checksum hash dir).2, 0⟩]

/-- Splitting file text into lines (iteration over a text-mode file handle,
with the trailing newline that `str.strip` later removes already dropped). -/
def splitOnNl : LC → List LC
  | [] => [[]]
  | c :: rest =>
    if c = '\n' then [] :: splitOnNl rest
    else
      match splitOnNl rest with
      | l :: ls => (c :: l) :: ls
      | [] => [[c]]

/-- Python `str.strip()`. -/
def pyStrip (l : LC) : LC :=
  ((l.dropWhile pySpace).reverse.dropWhile pySpace).reverse

/-- One `CHECKSUMS.txt` line parsed as `line.strip().split(maxsplit=1)`:
`some (digest, filename)` exactly when the split yields two parts. -/
def parseChecksumLine (line : LC) : Option (LC × LC) :=
  let l := pyStrip line
  let t := l.takeWhile (fun c => !pySpace c)
  let r := (l.dropWhile (fun c => !pySpace c)).dropWhile pySpace
  if t.isEmpty || r.isEmpty then none else some (t, r)

def parseChecksums (txt : LC) : List (LC × LC) :=
  (splitOnNl txt).filterMap parseChecksumLine

/-- One `CACHEINFO.txt` line matched against `^(\S+)\s+size=(\d+)` after
stripping (the regex either matches this shape at the start of the line or
the line is silently ignored). -/
def parseCacheLine (line : LC) : Option (LC × Nat) :=
  let l := pyStrip line
  let nm := l.takeWhile (fun c => !pySpace c)
  let r1 := l.dropWhile (fun c => !pySpace c)
  let ws := r1.takeWhile pySpace
  let r2 := r1.dropWhile pySpace
  if nm.isEmpty || ws.isEmpty then none
  else
    match stripPre sizeLit r2 with
    | none => none
    | some r3 =>
      let ds := r3.takeWhile Char.isDigit
      if ds.isEmpty then none else some (nm, digitsVal ds)

def parseCacheinfo (txt : LC) : List (LC × Nat) :=
  (splitOnNl txt).filterMap parseCacheLine

/-- `dirpath / filename` resolution: the regular file of that name, if any. -/
def findFile (dir : List FsFile) (n : LC) : Option FsFile :=
  dir.find? (fun f => f.name == n)

/-- `sizes_expected[filename]`: the Python dict keeps the last line for a
repeated name, hence the lookup from the reversed list. -/
def lookupSize (sizes : List (LC × Nat)) (n : LC) : Option Nat :=
  (sizes.reverse.find? (fun p => p.1 == n)).map (fun p => p.2)

/-- The diagnostics `verify_directory_checksum` accumulates, in order:
`Missing file:`, `Checksum mismatch:` and `Size mismatch: (expected, got)`. -/
inductive Diag
  | missing (name : LC)
  | badChecksum (name : LC)
  | badSize (name : LC) (expected actual : Nat)

deriving DecidableEq

/-- The checks run for one `CHECKSUMS.txt` entry `(digest, filename)`. -/
def checkEntry (hash : LC → LC) (dir : List FsFile) (sizes : List (LC × Nat))
    (e : LC × LC) : List Diag :=
  match findFile dir e.2 with
  | none => [Diag.missing e.2]
  | some f =>
    (if hash f.content ≠ e.1 then [Diag.badChecksum e.2] else []) ++
      (match lookupSize sizes e.2 with
        | some sz =>
          if f.content.length ≠ sz then [Diag.badSize e.2 sz f.content.length] else []
        | none => [])

/-- How `verify_directory_checksum` ends: the checksum file is absent, or the
full diagnostic list is nonempty (`ValidationError`), or the check passes. -/
inductive VerifyOutcome
  | noChecksumFile
  | failed (diags : List Diag)
  | passed

deriving DecidableEq

/-- Shallow embedding of `verify_directory_checksum`: read `CHECKSUMS.txt`
from the directory itself, optionally read `CACHEINFO.txt` for expected
sizes, run every entry's checks, and fail iff any diagnostic accumulated. -/
def verify_directory_checksum (hash : LC → LC) (dir : List FsFile) : VerifyOutcome :=
  match findFile dir cksName with
  | none => VerifyOutcome.noChecksumFile
  | some cf =>
    let sizes :=
      match findFile dir cinfName with
      | some inf => parseCacheinfo inf.content
      | none => []
    let diags := (parseChecksums cf.content).flatMap (checkEntry hash dir sizes)
    if diags = [] then VerifyOutcome.passed else VerifyOutcome.failed diags

/-- Deleting the file called `n` from a directory. -/
def removeByName (dir : List FsFile) (n : LC) : List FsFile :=
  dir.filter (fun f => !(f.name == n))

/-- A stand-in digest function for concrete runs: like a real hexdigest, its
output is nonempty whitespace-free printable ASCII. -/
def constHash : LC → LC := fun _ => lc "00"

/- ============================ Theorems ============================ -/

theorem sinsert_perm (le : α → α → Bool) (a : α) (l : List α) :
    List.Perm (sinsert le a l) (a :: l) := by
  induction l with
  | nil => simp [sinsert]
  | cons b bs ih =>
    simp only [sinsert]
    split
    · exact (List.Perm.cons b ih).trans (List.Perm.swap a b bs)
    · exact List.Perm.refl _

theorem ssort_perm (le : α → α → Bool) (l : List α) :
    List.Perm (ssort le l) l := by
  induction l with
  | nil => exact List.Perm.refl _
  | cons a as ih =>
    exact (sinsert_perm le a (ssort le as)).trans (List.Perm.cons a ih)

theorem mem_ssort {le : α → α → Bool} {a : α} {l : List α} :
    a ∈ ssort le l ↔ a ∈ l := (ssort_perm le l).mem_iff

/-- C7: document merging probes qpdf, pdftk, PDFBox in that fixed order and
uses exactly the first available tool; when none of the three is available it
raises the named "no merge tool available" error — whose message enumerates
qpdf, pdftk and PDFBox — without running any merge command. -/
theorem c7_merge_tool_priority (env : ToolEnv) (input_files : List LC)
    (dest : Option Doc) :
    (∀ q, env.qpdf = some q → selectMergeTool env = some (MergeTool.qpdf q)) ∧
    (∀ p, env.qpdf = none → env.pdftk = some p →
      selectMergeTool env = some (MergeTool.pdftk p)) ∧
    (∀ j, env.qpdf = none → env.pdftk = none → env.java = some j →
      env.pdfboxJarsPresent = true → selectMergeTool env = some (MergeTool.pdfbox j)) ∧
    (env.qpdf = none → env.pdftk = none →
      (env.java = none ∨ env.pdfboxJarsPresent = false) →
      do_merge env input_files dest = (MergeOutcome.noTool noMergeToolMsg, dest, [])) := by
  obtain ⟨q, p, j, b⟩ := env
  refine ⟨?_, ?_, ?_, ?_⟩
  · rintro x rfl; rfl
  · rintro x rfl rfl; rfl
  · rintro x rfl rfl rfl rfl; rfl
  · rintro rfl rfl h
    rcases h with h | h
    · subst h
      simp [do_merge, selectMergeTool]
    · subst h
      cases j <;> simp [do_merge, selectMergeTool]

/-- Closed witness for C7 at a concrete environment with no tool at all:
selection fails and `do_merge` surfaces the enumerating error, with no
command run and the destination untouched. -/
theorem c7_merge_tool_priority_witness :
    do_merge ⟨none, none, none, false⟩ [['a']] (some (Doc.raw 7)) =
      (MergeOutcome.noTool noMergeToolMsg, some (Doc.raw 7), []) :=
  (c7_merge_tool_priority ⟨none, none, none, false⟩ [['a']] (some (Doc.raw 7))).2.2.2
    rfl rfl (Or.inl rfl)

/-- C8 (counterexample): `merge_pdfs`/`_do_merge` takes no overwrite request
at all and, with a destination file already present, still merges and
replaces it — it is not a no-op, so the claim fails for the merge operation. -/
theorem c8_counterexample :
    do_merge ⟨some ['q'], none, none, false⟩ [['i', 'n']] (some (Doc.raw 0)) =
      (MergeOutcome.merged (MergeTool.qpdf ['q']), some (Doc.mergedFrom [['i', 'n']]),
        [RunStep.mergeCmd (MergeTool.qpdf ['q']), RunStep.exiftoolStrip,
          RunStep.qpdfLinearize]) ∧
    some (Doc.mergedFrom [['i', 'n']]) ≠ some (Doc.raw 0) := by
  exact ⟨rfl, by decide⟩

/-- C8 (amended): `generate_pdf` alone honours no-clobber — when the caller's
destination already exists and overwrite is not requested it returns
immediately, leaving the destination untouched; `merge_pdfs` has no such
guard and always overwrites. -/
theorem c8_generate_pdf_no_clobber (img_files hocr_files : List LC) :
    generate_pdf img_files hocr_files false true = GenOutcome.skippedExisting := by
  simp [generate_pdf]

/-- C9: the computed page scale factor equals (P ÷ W) × (T ÷ I) — image pixel
width over hOCR bbox width times target DPI over declared image DPI — well
within three-decimal precision (the model computes in exact rationals, where
the two expressions coincide; the Python floats agree to far better than
10⁻³). -/
theorem c9_calc_scale_formula (img : ImgInfo) (W T : ℚ)
    (hW : 0 < W) (hI : 0 < img.dpiX) :
    |calc_scale img W T - spec_scale img.width W T img.dpiX| < 1 / 1000 := by
  have h : calc_scale img W T = spec_scale img.width W T img.dpiX := rfl
  rw [h, sub_self, abs_zero]
  norm_num

/-- Closed witness for C9: a 2000-pixel-wide 400-dpi image, bbox width 1000,
target 200 dpi. -/
theorem c9_calc_scale_formula_witness :
    |calc_scale ⟨2000, 3000, 400, 400⟩ 1000 200 -
        spec_scale 2000 1000 200 400| < 1 / 1000 :=
  c9_calc_scale_formula ⟨2000, 3000, 400, 400⟩ 1000 200 (by norm_num) (by norm_num)

/-- C10: a merge can only complete when qpdf is installed: the mandatory
linearization step always invokes the `shutil.which("qpdf")` probe result, so
when qpdf is absent and pdftk was selected for concatenation instead, the run
crashes at the linearization step, before the final output is moved into
place. -/
theorem c10_qpdf_required (env : ToolEnv) (input_files : List LC)
    (dest : Option Doc) :
    (∀ t d r, do_merge env input_files dest = (MergeOutcome.merged t, d, r) →
      env.qpdf.isSome) ∧
    (∀ p, env.qpdf = none → env.pdftk = some p →
      do_merge env input_files dest =
        (MergeOutcome.crashedLinearize (MergeTool.pdftk p), dest,
          [RunStep.mergeCmd (MergeTool.pdftk p), RunStep.exiftoolStrip])) := by
  constructor
  · intro t d r h
    unfold do_merge at h
    cases hs : selectMergeTool env with
    | none => rw [hs] at h; simp at h
    | some u =>
      rw [hs] at h
      cases hq : env.qpdf with
      | none => rw [hq] at h; simp at h
      | some _ => simp [hq]
  · rintro p hq hp
    unfold do_merge
    have hs : selectMergeTool env = some (MergeTool.pdftk p) := by
      unfold selectMergeTool
      rw [hq, hp]
    rw [hs, hq]

/-- Closed witness for C10: with pdftk installed but qpdf absent, the merge
crashes at the linearization step and the destination is untouched. -/
theorem c10_qpdf_required_witness :
    do_merge ⟨none, some ['p'], none, false⟩ [['x']] none =
      (MergeOutcome.crashedLinearize (MergeTool.pdftk ['p']), none,
        [RunStep.mergeCmd (MergeTool.pdftk ['p']), RunStep.exiftoolStrip]) :=
  (c10_qpdf_required ⟨none, some ['p'], none, false⟩ [['x']] none).2 ['p'] rfl rfl

theorem mem_path_grep {dirpath : LC} {entries : List Dirent} {cond : Dirent → Bool}
    {e : Dirent} (he : e ∈ entries) (hc : cond e = true) :
    joinPath dirpath e.name ∈ path_grep dirpath entries cond := by
  unfold path_grep
  exact List.mem_map_of_mem _ (List.mem_filter.2 ⟨mem_ssort.2 he, hc⟩)

/-- C5 (counterexample): `/y/book_afr01_ocr.hocr` matches the canonical
renamed naming convention — it is literally the destination name the renamer
itself produces for the dmaker image — yet `rename_files` does not raise: it
proceeds and renames both source files (silently overwriting the canonical
file).  The already-renamed detector only looks for `_ocr.html` and
`_ocr.txt` names, never `_ocr.hocr`. -/
theorem c5_counterexample :
    is_nyu_format (get_bookid (lc "/r/book/aux")) hocrExt
        ⟨lc "book_afr01_ocr.hocr", true⟩ = true ∧
    (⟨lc "book_afr01_ocr.hocr", true⟩ : Dirent) ∈ yaiEntriesHocr ∧
    rename_files (lc "/r/book/aux") (lc "/y") seEntriesEx yaiEntriesHocr true true =
      Except.ok
        ⟨[(lc "/y/book_000001.txt", lc "/y/book_afr01_ocr.txt"),
            (lc "/y/book_000001.html", lc "/y/book_afr01_ocr.hocr")],
          [lc "/r/book/aux/book_afr01_d.tif"], [lc "/y/book_afr01_ocr.hocr"]⟩ := by
  refine ⟨by decide, by decide, by decide⟩

/-- C5 (amended): the double-rename guard fires exactly for files matching the
NYU pattern with extension `html` or `txt`: whenever the OCR directory
contains such a file, `rename_files` raises `FileRenameError` before
performing any rename (canonical `_ocr.hocr` files, by contrast, escape the
guard — see the counterexample). -/
theorem c5_already_renamed_guard (se_dir yai_dir : LC)
    (seEntries yaiEntries : List Dirent) (check_perms writable : Bool)
    (e : Dirent) (he : e ∈ yaiEntries)
    (hm : is_nyu_format (get_bookid se_dir) htmlExt e = true ∨
      is_nyu_format (get_bookid se_dir) txtExt e = true) :
    ∃ files, files ≠ [] ∧
      rename_files se_dir yai_dir seEntries yaiEntries check_perms writable =
        Except.error (RenameErr.alreadyRenamed yai_dir files) := by
  refine ⟨path_grep yai_dir yaiEntries (is_nyu_format (get_bookid se_dir) htmlExt) ++
    path_grep yai_dir yaiEntries (is_nyu_format (get_bookid se_dir) txtExt), ?_, ?_⟩
  · rcases hm with hm | hm
    · exact List.ne_nil_of_mem (List.mem_append_left _ (mem_path_grep he hm))
    · exact List.ne_nil_of_mem (List.mem_append_right _ (mem_path_grep he hm))
  · have hne : (path_grep yai_dir yaiEntries (is_nyu_format (get_bookid se_dir) htmlExt) ++
        path_grep yai_dir yaiEntries (is_nyu_format (get_bookid se_dir) txtExt)) ≠ [] := by
      rcases hm with hm | hm
      · exact List.ne_nil_of_mem (List.mem_append_left _ (mem_path_grep he hm))
      · exact List.ne_nil_of_mem (List.mem_append_right _ (mem_path_grep he hm))
    unfold rename_files
    rw [if_pos hne]

/-- Closed witness for the amended C5 at a directory containing an
already-renamed `_ocr.txt` file. -/
theorem c5_already_renamed_guard_witness :
    ∃ files, files ≠ [] ∧
      rename_files (lc "/r/book/aux") (lc "/y") seEntriesEx
          [⟨lc "book_afr01_ocr.txt", true⟩, ⟨lc "book_000001.html", true⟩]
          true true =
        Except.error (RenameErr.alreadyRenamed (lc "/y") files) :=
  c5_already_renamed_guard (lc "/r/book/aux") (lc "/y") seEntriesEx
    [⟨lc "book_afr01_ocr.txt", true⟩, ⟨lc "book_000001.html", true⟩] true true
    ⟨lc "book_afr01_ocr.txt", true⟩ (by decide) (Or.inr (by decide))

theorem ssort_names_nodup {entries : List Dirent}
    (h : (entries.map Dirent.name).Nodup) :
    (List.map Dirent.name
      (ssort (fun a b => lexLe (clean_text a.name) (clean_text b.name))
        entries)).Nodup :=
  (((ssort_perm _ _).map _).nodup_iff).mpr h

theorem joinPath_inj {d a b : LC} (h : joinPath d a = joinPath d b) : a = b := by
  unfold joinPath at h
  have h2 := List.append_cancel_left h
  simpa using h2

theorem path_grep_nodup {dirpath : LC} {entries : List Dirent}
    {cond : Dirent → Bool} (h : (entries.map Dirent.name).Nodup) :
    (path_grep dirpath entries cond).Nodup := by
  unfold path_grep
  have hfil : (List.map Dirent.name
      ((ssort (fun a b => lexLe (clean_text a.name) (clean_text b.name))
        entries).filter cond)).Nodup :=
    ((List.filter_sublist _).map Dirent.name).nodup (ssort_names_nodup h)
  have hrw : (fun e : Dirent => joinPath dirpath e.name) =
      (fun n => joinPath dirpath n) ∘ Dirent.name := rfl
  rw [hrw, ← List.map_map]
  refine hfil.map ?_
  intro a b hab
  exact joinPath_inj hab

theorem path_grep_disjoint {dirpath : LC} {entries : List Dirent}
    {c1 c2 : Dirent → Bool} (h : (entries.map Dirent.name).Nodup)
    (hc : ∀ e, ¬(c1 e = true ∧ c2 e = true)) :
    (path_grep dirpath entries c1).Disjoint (path_grep dirpath entries c2) := by
  intro p hp1 hp2
  unfold path_grep at hp1 hp2
  obtain ⟨e1, he1, hpe1⟩ := List.mem_map.1 hp1
  obtain ⟨e2, he2, hpe2⟩ := List.mem_map.1 hp2
  rw [List.mem_filter] at he1 he2
  have hnames : e1.name = e2.name := joinPath_inj (hpe1.trans hpe2.symm)
  have heq : e1 = e2 :=
    List.inj_on_of_nodup_map (ssort_names_nodup h) he1.1 he2.1 hnames
  exact hc e1 ⟨he1.2, heq ▸ he2.2⟩

theorem is_yai_txt_html_exclusive (b : LC) (e : Dirent) :
    ¬(is_yai_format b txtExt e = true ∧ is_yai_format b htmlExt e = true) := by
  rintro ⟨h1, h2⟩
  unfold is_yai_format at h1 h2
  cases hs : stripPre (b ++ ['_']) (clean_text e.name) with
  | none => rw [hs] at h1; simp at h1
  | some r =>
    rw [hs] at h1 h2
    dsimp only at h1 h2
    cases ht : takeDigits 6 r with
    | none => rw [ht] at h1; simp at h1
    | some r2 =>
      rw [ht] at h1 h2
      dsimp only at h1 h2
      simp only [Bool.and_eq_true, beq_iff_eq] at h1 h2
      have := h1.1.symm.trans h2.1
      simp [txtExt, htmlExt] at this

theorem takeWhile_append_stop {p : Char → Bool} {a : LC} {c : Char} {r : LC}
    (ha : ∀ x ∈ a, p x = true) (hc : p c = false) :
    (a ++ c :: r).takeWhile p = a := by
  induction a with
  | nil => simp [List.takeWhile_cons, hc]
  | cons x xs ih =>
    have hx := ha x (by simp)
    simp only [List.cons_append, List.takeWhile_cons, hx, if_true]
    rw [ih (fun y hy => ha y (by simp [hy]))]

theorem basename_append {d n : LC} (h : '/' ∉ n) : basename (d ++ '/' :: n) = n := by
  unfold basename
  have hrev : (d ++ '/' :: n).reverse = n.reverse ++ '/' :: d.reverse := by
    simp
  rw [hrev, takeWhile_append_stop ?ha ?hc, List.reverse_reverse]
  case ha =>
    intro x hx
    have hxn : x ∈ n := List.mem_reverse.mp hx
    simp only [ne_eq, decide_eq_true_eq]
    rintro rfl
    exact h hxn
  case hc => simp

theorem dst_decomp (se yai : LC) {e : Dirent} (hd : is_dmaker e = true)
    (hs : '/' ∉ e.name) (ext : LC) :
    ∃ stem, e.name = stem ++ dmakerSuffix ∧
      dmaker_dst yai (joinPath se e.name) ext =
        yai ++ '/' :: (stem ++ (ocrDot ++ ext)) := by
  have hsuf : dmakerSuffix <:+ e.name := by
    have hd2 : (endsWith dmakerSuffix e.name && e.isFile) = true := hd
    have hend := ((Bool.and_eq_true _ _).mp hd2).1
    unfold endsWith at hend
    exact List.isSuffixOf_iff_suffix.mp hend
  obtain ⟨stem, hstem⟩ := hsuf
  refine ⟨stem, hstem.symm, ?_⟩
  unfold dmaker_dst joinPath
  have h1 : se ++ '/' :: e.name = (se ++ '/' :: stem) ++ dmakerSuffix := by
    rw [← hstem]; simp
  rw [h1]
  have h2 : dropLastN 6 ((se ++ '/' :: stem) ++ dmakerSuffix) = se ++ '/' :: stem := by
    unfold dropLastN
    have hlen : ((se ++ '/' :: stem) ++ dmakerSuffix).length - 6 =
        (se ++ '/' :: stem).length := by
      simp [dmakerSuffix]
      omega
    rw [hlen, List.take_left]
  have hstem' : '/' ∉ stem := fun hmem =>
    hs (by rw [← hstem]; exact List.mem_append_left _ hmem)
  rw [h2, basename_append hstem']
  simp

theorem dst_txt_ne_hocr (yai x y : LC) :
    yai ++ '/' :: (x ++ (ocrDot ++ txtExt)) ≠
      yai ++ '/' :: (y ++ (ocrDot ++ hocrExt)) := by
  intro h
  have h2 := List.append_cancel_left h
  have h3 : x ++ (ocrDot ++ txtExt) = y ++ (ocrDot ++ hocrExt) := by
    simpa using h2
  have h4 := congrArg List.reverse h3
  simp [List.reverse_append, ocrDot, txtExt, hocrExt] at h4

theorem dmaker_dst_nodup {se yai : LC} {seEntries : List Dirent} (ext : LC)
    (hn : (seEntries.map Dirent.name).Nodup)
    (hs : ∀ e ∈ seEntries, '/' ∉ e.name) :
    ((path_grep se seEntries is_dmaker).map
      (fun img => dmaker_dst yai img ext)).Nodup := by
  unfold path_grep
  rw [List.map_map]
  refine List.Nodup.map_on ?_ ?_
  · intro x hx y hy hxy
    rw [List.mem_filter] at hx hy
    have hxs : '/' ∉ x.name := hs x (mem_ssort.mp hx.1)
    have hys : '/' ∉ y.name := hs y (mem_ssort.mp hy.1)
    obtain ⟨sx, hsx, hdx⟩ := dst_decomp se yai hx.2 hxs ext
    obtain ⟨sy, hsy, hdy⟩ := dst_decomp se yai hy.2 hys ext
    have heq : yai ++ '/' :: (sx ++ (ocrDot ++ ext)) =
        yai ++ '/' :: (sy ++ (ocrDot ++ ext)) := by
      rw [← hdx, ← hdy]
      exact hxy
    have hstem : sx = sy := by
      have h2 := List.append_cancel_left heq
      have h3 : sx ++ (ocrDot ++ ext) = sy ++ (ocrDot ++ ext) := by simpa using h2
      exact List.append_cancel_right h3
    have hname : x.name = y.name := by rw [hsx, hsy, hstem]
    exact List.inj_on_of_nodup_map (ssort_names_nodup hn) hx.1 hy.1 hname
  · exact List.Nodup.of_map Dirent.name
      (((List.filter_sublist _).map Dirent.name).nodup (ssort_names_nodup hn))

theorem dmaker_dst_disjoint {se yai : LC} {seEntries : List Dirent}
    (hs : ∀ e ∈ seEntries, '/' ∉ e.name) :
    ((path_grep se seEntries is_dmaker).map
        (fun img => dmaker_dst yai img txtExt)).Disjoint
      ((path_grep se seEntries is_dmaker).map
        (fun img => dmaker_dst yai img hocrExt)) := by
  intro p hp1 hp2
  unfold path_grep at hp1 hp2
  rw [List.map_map] at hp1 hp2
  obtain ⟨e1, he1, hpe1⟩ := List.mem_map.1 hp1
  obtain ⟨e2, he2, hpe2⟩ := List.mem_map.1 hp2
  rw [List.mem_filter] at he1 he2
  obtain ⟨s1, _, hd1⟩ := dst_decomp se yai he1.2
    (hs e1 (mem_ssort.mp he1.1)) txtExt
  obtain ⟨s2, _, hd2⟩ := dst_decomp se yai he2.2
    (hs e2 (mem_ssort.mp he2.1)) hocrExt
  have : yai ++ '/' :: (s1 ++ (ocrDot ++ txtExt)) =
      yai ++ '/' :: (s2 ++ (ocrDot ++ hocrExt)) := by
    rw [← hd1, ← hd2]
    exact (congrArg (fun q => q) hpe1).trans hpe2.symm
  exact dst_txt_ne_hocr yai s1 s2 this

/-- C2: under the matcher preconditions — no canonical-pattern (NYU-format)
file present, at least one source file per extension, per-extension counts
equal to the dmaker count, and write permission — `rename_files` succeeds and
renames the k-th source file of each extension (in byte-wise sorted order of
the BOM-stripped filenames, which is exactly the order `path_grep` yields) to
the destination derived from the k-th sorted dmaker image: the rename list is
the positional zip of the sorted sources with the dmaker-derived
destinations, per extension.  The embedded numeric suffix of a source name
plays no role: destinations are computed from the dmaker list alone.  With
distinct directory entry names the mapping is injective on both sides
(sources pairwise distinct, destinations pairwise distinct) — a
sort-order-preserving bijection per extension. -/
theorem c2_positional_rename (se_dir yai_dir : LC)
    (seEntries yaiEntries : List Dirent) (check_perms writable : Bool)
    (hny : (yaiEntries.map Dirent.name).Nodup)
    (hns : (seEntries.map Dirent.name).Nodup)
    (hss : ∀ e ∈ seEntries, '/' ∉ e.name)
    (hr : path_grep yai_dir yaiEntries (is_nyu_format (get_bookid se_dir) htmlExt) ++
      path_grep yai_dir yaiEntries (is_nyu_format (get_bookid se_dir) txtExt) = [])
    (hd : path_grep se_dir seEntries is_dmaker ≠ [])
    (ht : path_grep yai_dir yaiEntries (is_yai_format (get_bookid se_dir) txtExt) ≠ [])
    (hh : path_grep yai_dir yaiEntries (is_yai_format (get_bookid se_dir) htmlExt) ≠ [])
    (hlt : (path_grep yai_dir yaiEntries
        (is_yai_format (get_bookid se_dir) txtExt)).length =
      (path_grep se_dir seEntries is_dmaker).length)
    (hlh : (path_grep yai_dir yaiEntries
        (is_yai_format (get_bookid se_dir) htmlExt)).length =
      (path_grep se_dir seEntries is_dmaker).length)
    (hperm : (check_perms && !writable) = false) :
    rename_files se_dir yai_dir seEntries yaiEntries check_perms writable =
      Except.ok
        ⟨(path_grep yai_dir yaiEntries (is_yai_format (get_bookid se_dir) txtExt)).zip
            ((path_grep se_dir seEntries is_dmaker).map
              (fun img => dmaker_dst yai_dir img txtExt)) ++
          (path_grep yai_dir yaiEntries (is_yai_format (get_bookid se_dir) htmlExt)).zip
            ((path_grep se_dir seEntries is_dmaker).map
              (fun img => dmaker_dst yai_dir img hocrExt)),
          path_grep se_dir seEntries is_dmaker,
          (path_grep se_dir seEntries is_dmaker).map
            (fun img => dmaker_dst yai_dir img hocrExt)⟩ ∧
    ((path_grep yai_dir yaiEntries (is_yai_format (get_bookid se_dir) txtExt)).zip
        ((path_grep se_dir seEntries is_dmaker).map
          (fun img => dmaker_dst yai_dir img txtExt))).map Prod.fst =
      path_grep yai_dir yaiEntries (is_yai_format (get_bookid se_dir) txtExt) ∧
    ((path_grep yai_dir yaiEntries (is_yai_format (get_bookid se_dir) htmlExt)).zip
        ((path_grep se_dir seEntries is_dmaker).map
          (fun img => dmaker_dst yai_dir img hocrExt))).map Prod.snd =
      (path_grep se_dir seEntries is_dmaker).map
        (fun img => dmaker_dst yai_dir img hocrExt) ∧
    (path_grep yai_dir yaiEntries (is_yai_format (get_bookid se_dir) txtExt) ++
      path_grep yai_dir yaiEntries (is_yai_format (get_bookid se_dir) htmlExt)).Nodup ∧
    ((path_grep se_dir seEntries is_dmaker).map
        (fun img => dmaker_dst yai_dir img txtExt) ++
      (path_grep se_dir seEntries is_dmaker).map
        (fun img => dmaker_dst yai_dir img hocrExt)).Nodup := by
  refine ⟨?_, ?_, ?_, ?_, ?_⟩
  · unfold rename_files
    rw [if_neg (by simp [hr]), if_neg hd, if_neg ht, if_neg hh]
    rw [if_neg (by rw [List.length_map]; simp [hlt]),
      if_neg (by rw [List.length_map]; simp [hlh]),
      if_neg (by simp [hperm])]
    rw [List.zip_append (by rw [List.length_map]; exact hlt)]
  · exact List.map_fst_zip _ _ (by rw [List.length_map]; exact le_of_eq hlt)
  · exact List.map_snd_zip _ _ (by rw [List.length_map]; exact le_of_eq hlh.symm)
  · exact List.Nodup.append (path_grep_nodup hny) (path_grep_nodup hny)
      (path_grep_disjoint hny (is_yai_txt_html_exclusive (get_bookid se_dir)))
  · exact List.Nodup.append (dmaker_dst_nodup txtExt hns hss)
      (dmaker_dst_nodup hocrExt hns hss) (dmaker_dst_disjoint hss)

/-- Closed witness for C2: the three-page book of the specification's
end-to-end example, with scrambled directory listings. -/
theorem c2_positional_rename_witness :
    rename_files (lc "/r/book/aux") (lc "/y") seEntries3 yaiEntries3 true true =
      Except.ok
        ⟨(path_grep (lc "/y") yaiEntries3 (is_yai_format (get_bookid (lc "/r/book/aux")) txtExt)).zip
            ((path_grep (lc "/r/book/aux") seEntries3 is_dmaker).map
              (fun img => dmaker_dst (lc "/y") img txtExt)) ++
          (path_grep (lc "/y") yaiEntries3 (is_yai_format (get_bookid (lc "/r/book/aux")) htmlExt)).zip
            ((path_grep (lc "/r/book/aux") seEntries3 is_dmaker).map
              (fun img => dmaker_dst (lc "/y") img hocrExt)),
          path_grep (lc "/r/book/aux") seEntries3 is_dmaker,
          (path_grep (lc "/r/book/aux") seEntries3 is_dmaker).map
            (fun img => dmaker_dst (lc "/y") img hocrExt)⟩ ∧
    ((path_grep (lc "/y") yaiEntries3 (is_yai_format (get_bookid (lc "/r/book/aux")) txtExt)).zip
        ((path_grep (lc "/r/book/aux") seEntries3 is_dmaker).map
          (fun img => dmaker_dst (lc "/y") img txtExt))).map Prod.fst =
      path_grep (lc "/y") yaiEntries3 (is_yai_format (get_bookid (lc "/r/book/aux")) txtExt) ∧
    ((path_grep (lc "/y") yaiEntries3 (is_yai_format (get_bookid (lc "/r/book/aux")) htmlExt)).zip
        ((path_grep (lc "/r/book/aux") seEntries3 is_dmaker).map
          (fun img => dmaker_dst (lc "/y") img hocrExt))).map Prod.snd =
      (path_grep (lc "/r/book/aux") seEntries3 is_dmaker).map
        (fun img => dmaker_dst (lc "/y") img hocrExt) ∧
    (path_grep (lc "/y") yaiEntries3 (is_yai_format (get_bookid (lc "/r/book/aux")) txtExt) ++
      path_grep (lc "/y") yaiEntries3 (is_yai_format (get_bookid (lc "/r/book/aux")) htmlExt)).Nodup ∧
    ((path_grep (lc "/r/book/aux") seEntries3 is_dmaker).map
        (fun img => dmaker_dst (lc "/y") img txtExt) ++
      (path_grep (lc "/r/book/aux") seEntries3 is_dmaker).map
        (fun img => dmaker_dst (lc "/y") img hocrExt)).Nodup :=
  c2_positional_rename (lc "/r/book/aux") (lc "/y") seEntries3 yaiEntries3 true true
    (by decide) (by decide) (by decide) (by decide) (by decide) (by decide)
    (by decide) (by decide) (by decide) (by decide)

/-- C3 (counterexample): with one dmaker image and zero matched YaiGlobal OCR
text files the per-extension counts differ (1 vs 0), but the raised error is
the bare "Can't find YaiGlobal OCR text files" message, which reports neither
count — the exact-counts reporting only happens when both source sets are
nonempty. -/
theorem c3_counterexample :
    (path_grep (lc "/y") [⟨lc "book_000001.html", true⟩]
        (is_yai_format (lc "book") txtExt)).length ≠
      (path_grep (lc "/r/book/aux") seEntriesEx is_dmaker).length ∧
    rename_files (lc "/r/book/aux") (lc "/y") seEntriesEx
        [⟨lc "book_000001.html", true⟩] true true =
      Except.error (RenameErr.noTxt (lc "/y")) := by
  exact ⟨by decide, by decide⟩

/-- C3 (amended): when the guards ahead of the count checks pass — no
already-renamed file, at least one dmaker image, and at least one source file
of each extension — any count mismatch between the dmaker images and the
matched source files of an extension raises a `FileRenameError` carrying the
two exact counts and the two directories, before any rename happens. -/
theorem c3_count_mismatch (se_dir yai_dir : LC)
    (seEntries yaiEntries : List Dirent) (check_perms writable : Bool)
    (hr : path_grep yai_dir yaiEntries (is_nyu_format (get_bookid se_dir) htmlExt) ++
      path_grep yai_dir yaiEntries (is_nyu_format (get_bookid se_dir) txtExt) = [])
    (hd : path_grep se_dir seEntries is_dmaker ≠ [])
    (ht : path_grep yai_dir yaiEntries (is_yai_format (get_bookid se_dir) txtExt) ≠ [])
    (hh : path_grep yai_dir yaiEntries (is_yai_format (get_bookid se_dir) htmlExt) ≠ [])
    (hmm : (path_grep yai_dir yaiEntries
        (is_yai_format (get_bookid se_dir) txtExt)).length ≠
        (path_grep se_dir seEntries is_dmaker).length ∨
      (path_grep yai_dir yaiEntries
        (is_yai_format (get_bookid se_dir) htmlExt)).length ≠
        (path_grep se_dir seEntries is_dmaker).length) :
    rename_files se_dir yai_dir seEntries yaiEntries check_perms writable =
      (if (path_grep yai_dir yaiEntries
            (is_yai_format (get_bookid se_dir) txtExt)).length ≠
          (path_grep se_dir seEntries is_dmaker).length then
        Except.error (RenameErr.txtCountMismatch se_dir
          (path_grep se_dir seEntries is_dmaker).length yai_dir
          (path_grep yai_dir yaiEntries
            (is_yai_format (get_bookid se_dir) txtExt)).length)
      else
        Except.error (RenameErr.htmlCountMismatch se_dir
          (path_grep se_dir seEntries is_dmaker).length yai_dir
          (path_grep yai_dir yaiEntries
            (is_yai_format (get_bookid se_dir) htmlExt)).length)) := by
  unfold rename_files
  rw [if_neg (by simp [hr]), if_neg hd, if_neg ht, if_neg hh]
  rw [List.length_map, List.length_map]
  by_cases hcase : (path_grep yai_dir yaiEntries
      (is_yai_format (get_bookid se_dir) txtExt)).length =
      (path_grep se_dir seEntries is_dmaker).length
  · have hcase2 : (path_grep yai_dir yaiEntries
        (is_yai_format (get_bookid se_dir) htmlExt)).length ≠
        (path_grep se_dir seEntries is_dmaker).length := by
      rcases hmm with h | h
      · exact absurd hcase h
      · exact h
    rw [if_neg (by simp [hcase]), if_pos hcase2, if_neg (by simp [hcase])]
  · rw [if_pos hcase, if_pos (by simpa using hcase)]

theorem digitChar_toNat {d : Nat} (h : d < 10) : (digitChar d).toNat = 48 + d := by
  interval_cases d <;> decide

theorem digitChar_isDigit {d : Nat} (h : d < 10) : (digitChar d).isDigit = true := by
  interval_cases d <;> decide

theorem pySpace_cases {c : Char} (hB : pySpace c = true) :
    c = ' ' ∨ c = '\t' ∨ c = '\n' ∨ c = '\r' ∨ c = '\x0b' ∨ c = '\x0c' := by
  simpa [pySpace, or_assoc] using hB

theorem isDigit_not_pySpace {c : Char} (h : c.isDigit = true) : pySpace c = false := by
  cases hB : pySpace c
  · rfl
  · exfalso
    rcases pySpace_cases hB with rfl | rfl | rfl | rfl | rfl | rfl <;>
      exact absurd h (by decide)

theorem good_not_pySpace {c : Char} (h : 32 < c.toNat ∧ c.toNat < 127) :
    pySpace c = false := by
  cases hB : pySpace c
  · rfl
  · exfalso
    rcases pySpace_cases hB with rfl | rfl | rfl | rfl | rfl | rfl <;>
      exact absurd h.1 (by decide)

theorem not_pySpace_ne_nl {c : Char} (h : pySpace c = false) : c ≠ '\n' := by
  rintro rfl
  exact absurd h (by decide)

theorem good_chars_not_space {s : LC} (h : GoodLC s) :
    ∀ c ∈ s, pySpace c = false := fun c hc => good_not_pySpace (h.2 c hc)

theorem good_nl_not_mem {s : LC} (h : GoodLC s) : '\n' ∉ s := fun hm =>
  not_pySpace_ne_nl (good_chars_not_space h _ hm) rfl

theorem digitsVal_append_digit (ds : LC) (c : Char) :
    digitsVal (ds ++ [c]) = 10 * digitsVal ds + (c.toNat - 48) := by
  unfold digitsVal
  rw [List.foldl_append]
  rfl

theorem natToCharsAux_spec (fuel : Nat) : ∀ n, n < fuel →
    digitsVal (natToCharsAux fuel n) = n ∧ natToCharsAux fuel n ≠ [] ∧
      ∀ c ∈ natToCharsAux fuel n, c.isDigit = true := by
  induction fuel with
  | zero => intro n h; omega
  | succ fuel ih =>
    intro n h
    unfold natToCharsAux
    by_cases h10 : n < 10
    · rw [if_pos h10]
      refine ⟨?_, by simp, ?_⟩
      · simp [digitsVal, digitChar_toNat h10]
      · intro c hc
        simp only [List.mem_singleton] at hc
        subst hc
        exact digitChar_isDigit h10
    · rw [if_neg h10]
      have hdiv : n / 10 < n := Nat.div_lt_self (by omega) (by omega)
      obtain ⟨ihv, ihne, ihd⟩ := ih (n / 10) (by omega)
      have hmod : n % 10 < 10 := Nat.mod_lt _ (by omega)
      refine ⟨?_, by simp, ?_⟩
      · rw [digitsVal_append_digit, ihv, digitChar_toNat hmod]
        omega
      · intro c hc
        rcases List.mem_append.1 hc with h1 | h2
        · exact ihd c h1
        · simp only [List.mem_singleton] at h2
          subst h2
          exact digitChar_isDigit hmod

theorem natToChars_val (n : Nat) : digitsVal (natToChars n) = n :=
  (natToCharsAux_spec (n + 1) n (by omega)).1

theorem natToChars_ne_nil (n : Nat) : natToChars n ≠ [] :=
  (natToCharsAux_spec (n + 1) n (by omega)).2.1

theorem natToChars_digits (n : Nat) : ∀ c ∈ natToChars n, c.isDigit = true :=
  (natToCharsAux_spec (n + 1) n (by omega)).2.2

theorem dropWhile_append_stop {p : Char → Bool} {a : LC} {c : Char} {r : LC}
    (ha : ∀ x ∈ a, p x = true) (hc : p c = false) :
    (a ++ c :: r).dropWhile p = c :: r := by
  induction a with
  | nil => simp [List.dropWhile_cons, hc]
  | cons x xs ih =>
    have hx := ha x (by simp)
    simp only [List.cons_append, List.dropWhile_cons, hx, if_true]
    exact ih (fun y hy => ha y (by simp [hy]))

theorem dropWhile_eq_self_of_head {p : Char → Bool} {l : LC}
    (h : ∀ c, l.head? = some c → p c = false) : l.dropWhile p = l := by
  cases l with
  | nil => rfl
  | cons c r => simp [List.dropWhile_cons, h c rfl]

theorem stripPre_append (p r : LC) : stripPre p (p ++ r) = some r := by
  induction p with
  | nil => rfl
  | cons c cs ih => simp [stripPre, ih]

theorem splitOnNl_append {a b : LC} (h : '\n' ∉ a) :
    splitOnNl (a ++ '\n' :: b) = a :: splitOnNl b := by
  induction a with
  | nil => simp [splitOnNl]
  | cons c cs ih =>
    have hc : ¬(c = '\n') := fun hcc => h (by simp [hcc])
    have hcs : '\n' ∉ cs := fun hm => h (by simp [hm])
    simp only [List.cons_append, splitOnNl, if_neg hc, List.append_eq, ih hcs]

theorem pyStrip_eq_self {l : LC}
    (h1 : ∀ c, l.head? = some c → pySpace c = false)
    (h2 : ∀ c, l.getLast? = some c → pySpace c = false) : pyStrip l = l := by
  unfold pyStrip
  rw [dropWhile_eq_self_of_head h1, dropWhile_eq_self_of_head
    (fun c hc => h2 c (by rwa [List.head?_reverse] at hc)), List.reverse_reverse]

/-- Closed witness for the amended C3: two source pairs against one dmaker
image; the error carries both counts (1 dmaker vs 2 txt) and both
directories. -/
theorem c3_count_mismatch_witness :
    rename_files (lc "/r/book/aux") (lc "/y") seEntriesEx
        [⟨lc "book_000001.html", true⟩, ⟨lc "book_000001.txt", true⟩,
          ⟨lc "book_000002.html", true⟩, ⟨lc "book_000002.txt", true⟩]
        true true =
      Except.error (RenameErr.txtCountMismatch (lc "/r/book/aux") 1 (lc "/y") 2) := by
  have h := c3_count_mismatch (lc "/r/book/aux") (lc "/y") seEntriesEx
    [⟨lc "book_000001.html", true⟩, ⟨lc "book_000001.txt", true⟩,
      ⟨lc "book_000002.html", true⟩, ⟨lc "book_000002.txt", true⟩]
    true true (by decide) (by decide) (by decide) (by decide) (Or.inl (by decide))
  rw [h]
  decide

theorem good_head_not_space {s : LC} (h : GoodLC s) :
    ∀ c, s.head? = some c → pySpace c = false := fun c hc =>
  good_chars_not_space h c (List.mem_of_mem_head? (by simp [hc]))

theorem parseChecksumLine_encode {d n : LC} (hd : GoodLC d) (hn : GoodLC n) :
    parseChecksumLine (d ++ ' ' :: ' ' :: n) = some (d, n) := by
  obtain ⟨n0, e, rfl⟩ : ∃ n0 e, n = n0 ++ [e] := by
    rcases List.eq_nil_or_concat n with h | ⟨L, b, hLb⟩
    · exact absurd h hn.1
    · exact ⟨L, b, by simpa [List.concat_eq_append] using hLb⟩
  have he : pySpace e = false :=
    good_chars_not_space hn e (List.mem_append_right _ (by simp))
  have hstrip : pyStrip (d ++ ' ' :: ' ' :: (n0 ++ [e])) = d ++ ' ' :: ' ' :: (n0 ++ [e]) := by
    refine pyStrip_eq_self ?_ ?_
    · intro c hc
      obtain ⟨dc, d', rfl⟩ := List.exists_cons_of_ne_nil hd.1
      rw [List.cons_append, List.head?_cons] at hc
      exact good_head_not_space hd c (by rw [List.head?_cons]; exact hc)
    · intro c hc
      have hsh : d ++ ' ' :: ' ' :: (n0 ++ [e]) = (d ++ ' ' :: ' ' :: n0) ++ [e] := by
        simp
      rw [hsh, List.getLast?_concat] at hc
      injection hc with hec
      subst hec
      exact he
  unfold parseChecksumLine
  rw [hstrip]
  have ht : (d ++ ' ' :: ' ' :: (n0 ++ [e])).takeWhile (fun c => !pySpace c) = d :=
    takeWhile_append_stop
      (fun x hx => by simp [good_chars_not_space hd x hx])
      (by decide)
  have hr1 : (d ++ ' ' :: ' ' :: (n0 ++ [e])).dropWhile (fun c => !pySpace c) =
      ' ' :: ' ' :: (n0 ++ [e]) :=
    dropWhile_append_stop
      (fun x hx => by simp [good_chars_not_space hd x hx])
      (by decide)
  have hr2 : (' ' :: ' ' :: (n0 ++ [e])).dropWhile pySpace = n0 ++ [e] := by
    rw [List.dropWhile_cons, if_pos (by decide), List.dropWhile_cons, if_pos (by decide)]
    exact dropWhile_eq_self_of_head (good_head_not_space hn)
  simp only [ht, hr1, hr2]
  rw [if_neg (by simp [hd.1, hn.1])]

theorem parseCacheLine_encode {n : LC} (hn : GoodLC n) (size mtime : Nat) :
    parseCacheLine (cacheLineBody n size mtime) = some (n, size) := by
  obtain ⟨dm0, e, hdm⟩ : ∃ dm0 e, natToChars mtime = dm0 ++ [e] := by
    rcases List.eq_nil_or_concat (natToChars mtime) with h | ⟨L, b, hLb⟩
    · exact absurd h (natToChars_ne_nil mtime)
    · exact ⟨L, b, by simpa [List.concat_eq_append] using hLb⟩
  have he : pySpace e = false :=
    isDigit_not_pySpace (natToChars_digits mtime e (by rw [hdm]; simp))
  have hstrip : pyStrip (cacheLineBody n size mtime) = cacheLineBody n size mtime := by
    refine pyStrip_eq_self ?_ ?_
    · intro c hc
      obtain ⟨nc, n', rfl⟩ := List.exists_cons_of_ne_nil hn.1
      rw [cacheLineBody, List.cons_append, List.head?_cons] at hc
      exact good_head_not_space hn c (by rw [List.head?_cons]; exact hc)
    · intro c hc
      have hsh : cacheLineBody n size mtime =
          (n ++ ' ' :: ' ' :: (sizeLit ++ natToChars size ++ ' ' :: ' ' :: (mtimeLit ++ dm0))) ++ [e] := by
        simp [cacheLineBody, hdm]
      rw [hsh, List.getLast?_concat] at hc
      injection hc with hec
      subst hec
      exact he
  unfold parseCacheLine
  rw [hstrip]
  rw [cacheLineBody]
  have hX : sizeLit ++ natToChars size ++ ' ' :: ' ' :: (mtimeLit ++ natToChars mtime) =
      's' :: ('i' :: 'z' :: 'e' :: '=' ::
        (natToChars size ++ ' ' :: ' ' :: (mtimeLit ++ natToChars mtime))) := by
    simp [sizeLit]
  have ht : (n ++ ' ' :: ' ' :: (sizeLit ++ natToChars size ++ ' ' :: ' ' :: (mtimeLit ++ natToChars mtime))).takeWhile
      (fun c => !pySpace c) = n :=
    takeWhile_append_stop
      (fun x hx => by simp [good_chars_not_space hn x hx])
      (by decide)
  have hr1 : (n ++ ' ' :: ' ' :: (sizeLit ++ natToChars size ++ ' ' :: ' ' :: (mtimeLit ++ natToChars mtime))).dropWhile
      (fun c => !pySpace c) =
      ' ' :: ' ' :: (sizeLit ++ natToChars size ++ ' ' :: ' ' :: (mtimeLit ++ natToChars mtime)) :=
    dropWhile_append_stop
      (fun x hx => by simp [good_chars_not_space hn x hx])
      (by decide)
  have hws : (' ' :: ' ' :: (sizeLit ++ natToChars size ++ ' ' :: ' ' :: (mtimeLit ++ natToChars mtime))).takeWhile
      pySpace = [' ', ' '] := by
    rw [List.takeWhile_cons, if_pos (by decide), List.takeWhile_cons, if_pos (by decide),
      hX, List.takeWhile_cons, if_neg (by decide)]
  have hr2 : (' ' :: ' ' :: (sizeLit ++ natToChars size ++ ' ' :: ' ' :: (mtimeLit ++ natToChars mtime))).dropWhile
      pySpace = sizeLit ++ natToChars size ++ ' ' :: ' ' :: (mtimeLit ++ natToChars mtime) := by
    rw [List.dropWhile_cons, if_pos (by decide), List.dropWhile_cons, if_pos (by decide)]
    rw [hX, List.dropWhile_cons, if_neg (by decide), ← hX]
  simp only [ht, hr1, hws, hr2]
  rw [if_neg (by simp [hn.1])]
  have hsp : stripPre sizeLit
      (sizeLit ++ natToChars size ++ ' ' :: ' ' :: (mtimeLit ++ natToChars mtime)) =
      some (natToChars size ++ ' ' :: ' ' :: (mtimeLit ++ natToChars mtime)) := by
    rw [List.append_assoc]
    exact stripPre_append _ _
  rw [hsp]
  have hds : (natToChars size ++ ' ' :: ' ' :: (mtimeLit ++ natToChars mtime)).takeWhile
      Char.isDigit = natToChars size :=
    takeWhile_append_stop (natToChars_digits size) (by decide)
  simp only [hds]
  rw [if_neg (by simp [natToChars_ne_nil size]), natToChars_val]

theorem parseChecksums_encode : ∀ {entries : List (LC × LC)},
    (∀ e ∈ entries, GoodLC e.1 ∧ GoodLC e.2) →
    parseChecksums (encodeChecksums entries) = entries := by
  intro entries
  induction entries with
  | nil => intro _; rfl
  | cons e rest ih =>
    intro h
    obtain ⟨d, n⟩ := e
    have hd := (h (d, n) (by simp)).1
    have hn := (h (d, n) (by simp)).2
    have hnl : '\n' ∉ d ++ ' ' :: ' ' :: n := by
      intro hm
      rcases List.mem_append.1 hm with h1 | h2
      · exact good_nl_not_mem hd h1
      · rcases List.mem_cons.1 h2 with h3 | h4
        · exact absurd h3 (by decide)
        · rcases List.mem_cons.1 h4 with h5 | h6
          · exact absurd h5 (by decide)
          · exact good_nl_not_mem hn h6
    rw [encodeChecksums]
    have hline : d ++ ' ' :: ' ' :: (n ++ '\n' :: encodeChecksums rest) =
        (d ++ ' ' :: ' ' :: n) ++ '\n' :: encodeChecksums rest := by
      simp
    rw [hline]
    unfold parseChecksums
    rw [splitOnNl_append hnl, List.filterMap_cons, parseChecksumLine_encode hd hn]
    exact congrArg _ (ih (fun x hx => h x (by simp [hx])))

theorem parseCacheinfo_encode : ∀ {files : List FsFile},
    (∀ f ∈ files, GoodLC f.name) →
    parseCacheinfo (encodeCacheinfo files) =
      files.map (fun f => (f.name, f.content.length)) := by
  intro files
  induction files with
  | nil => intro _; rfl
  | cons f rest ih =>
    intro h
    have hn := h f (by simp)
    have hnl : '\n' ∉ cacheLineBody f.name f.content.length f.mtime := by
      intro hm
      rw [cacheLineBody] at hm
      rcases List.mem_append.1 hm with h1 | h2
      · exact good_nl_not_mem hn h1
      · rcases List.mem_cons.1 h2 with h3 | h4
        · exact absurd h3 (by decide)
        · rcases List.mem_cons.1 h4 with h5 | h6
          · exact absurd h5 (by decide)
          · rcases List.mem_append.1 h6 with h7 | h8
            · rcases List.mem_append.1 h7 with h9 | h10
              · exact absurd h9 (by decide)
              · exact absurd (natToChars_digits _ '\n' h10) (by decide)
            · rcases List.mem_cons.1 h8 with h11 | h12
              · exact absurd h11 (by decide)
              · rcases List.mem_cons.1 h12 with h13 | h14
                · exact absurd h13 (by decide)
                · rcases List.mem_append.1 h14 with h15 | h16
                  · exact absurd h15 (by decide)
                  · exact absurd (natToChars_digits _ '\n' h16) (by decide)
    rw [encodeCacheinfo]
    unfold parseCacheinfo
    rw [splitOnNl_append hnl, List.filterMap_cons,
      parseCacheLine_encode hn f.content.length f.mtime]
    simp only [List.map_cons]
    exact congrArg _ (ih (fun x hx => h x (by simp [hx])))

theorem fsort_names_nodup {dir : List FsFile} (h : (dir.map FsFile.name).Nodup) :
    ((ssort fileNameLe dir).map FsFile.name).Nodup :=
  (((ssort_perm _ _).map _).nodup_iff).mpr h

theorem covered_names_nodup {dir : List FsFile} (h : (dir.map FsFile.name).Nodup) :
    ((coveredFiles dir).map FsFile.name).Nodup :=
  ((List.filter_sublist _).map FsFile.name).nodup (fsort_names_nodup h)

theorem covered_mem {dir : List FsFile} {f : FsFile} (h : f ∈ coveredFiles dir) :
    f ∈ dir ∧ (!(f.name == cksName || f.name == cinfName)) = true := by
  unfold coveredFiles at h
  rw [List.mem_filter] at h
  exact ⟨mem_ssort.1 h.1, h.2⟩

theorem mem_covered {dir : List FsFile} {f : FsFile} (h1 : f ∈ dir)
    (h2 : (!(f.name == cksName || f.name == cinfName)) = true) :
    f ∈ coveredFiles dir := by
  unfold coveredFiles
  exact List.mem_filter.2 ⟨mem_ssort.2 h1, h2⟩

theorem covered_good {dir : List FsFile} (hgood : ∀ f ∈ dir, GoodLC f.name) :
    ∀ f ∈ coveredFiles dir, GoodLC f.name := fun f hf => hgood f (covered_mem hf).1

theorem findFile_append (A B : List FsFile) (n : LC) :
    findFile (A ++ B) n = (findFile A n).or (findFile B n) := List.find?_append

theorem findFile_build_cks (hash : LC → LC) (dir : List FsFile) :
    findFile (dirAfterBuild hash dir) cksName =
      some ⟨cksName, (create_directory_checksum hash dir).1, 0⟩ := by
  unfold dirAfterBuild
  rw [findFile_append]
  have h1 : findFile
      (dir.filter fun f => !(f.name == cksName || f.name == cinfName)) cksName = none := by
    unfold findFile
    rw [List.find?_eq_none]
    intro x hx
    have h2 := (List.mem_filter.1 hx).2
    simp only [Bool.not_eq_true', Bool.or_eq_false_iff] at h2
    simp [h2.1]
  rw [h1]
  unfold findFile
  simp [List.find?_cons]

theorem findFile_build_cinf (hash : LC → LC) (dir : List FsFile) :
    findFile (dirAfterBuild hash dir) cinfName =
      some ⟨cinfName, (create_directory_checksum hash dir).2, 0⟩ := by
  unfold dirAfterBuild
  rw [findFile_append]
  have h1 : findFile
      (dir.filter fun f => !(f.name == cksName || f.name == cinfName)) cinfName = none := by
    unfold findFile
    rw [List.find?_eq_none]
    intro x hx
    have h2 := (List.mem_filter.1 hx).2
    simp only [Bool.not_eq_true', Bool.or_eq_false_iff] at h2
    simp [h2.2]
  rw [h1]
  unfold findFile
  simp [List.find?_cons, (by decide : (cksName == cinfName) = false)]

theorem findFile_build_covered (hash : LC → LC) {dir : List FsFile}
    (hnod : (dir.map FsFile.name).Nodup) :
    ∀ f ∈ coveredFiles dir, findFile (dirAfterBuild hash dir) f.name = some f := by
  intro f hf
  obtain ⟨hmem, hnotm⟩ := covered_mem hf
  unfold dirAfterBuild
  rw [findFile_append]
  have hfmem : f ∈ dir.filter (fun g => !(g.name == cksName || g.name == cinfName)) :=
    List.mem_filter.2 ⟨hmem, hnotm⟩
  cases hfind : findFile
      (dir.filter fun g => !(g.name == cksName || g.name == cinfName)) f.name with
  | none =>
    exfalso
    unfold findFile at hfind
    rw [List.find?_eq_none] at hfind
    exact hfind f hfmem (by simp)
  | some g =>
    have hg : g.name = f.name := by simpa using List.find?_some hfind
    have hgmem : g ∈ dir := (List.mem_filter.1 (List.mem_of_find?_eq_some hfind)).1
    have hgf : g = f := List.inj_on_of_nodup_map hnod hgmem hmem hg
    subst hgf
    rfl

theorem lookupSize_covered {dir : List FsFile} (hnod : (dir.map FsFile.name).Nodup) :
    ∀ f ∈ coveredFiles dir,
      lookupSize ((coveredFiles dir).map (fun g => (g.name, g.content.length))) f.name =
        some f.content.length := by
  intro f hf
  unfold lookupSize
  cases hfind : ((coveredFiles dir).map (fun g => (g.name, g.content.length))).reverse.find?
      (fun p => p.1 == f.name) with
  | none =>
    exfalso
    rw [List.find?_eq_none] at hfind
    exact hfind (f.name, f.content.length)
      (List.mem_reverse.2 (List.mem_map_of_mem _ hf)) (by simp)
  | some pr =>
    have hpr : pr.1 = f.name := by simpa using List.find?_some hfind
    have hprmem := List.mem_reverse.1 (List.mem_of_find?_eq_some hfind)
    obtain ⟨g, hg, hge⟩ := List.mem_map.1 hprmem
    have hname : g.name = f.name := by rw [← hpr, ← hge]
    have hgf : g = f := List.inj_on_of_nodup_map (covered_names_nodup hnod) hg hf hname
    subst hgf
    rw [← hge]
    simp

theorem checkEntry_eq_nil {hash : LC → LC} {D : List FsFile} {sizes : List (LC × Nat)}
    {d n : LC} {f : FsFile} (hfind : findFile D n = some f)
    (hdg : hash f.content = d)
    (hsz : ∀ sz, lookupSize sizes n = some sz → sz = f.content.length) :
    checkEntry hash D sizes (d, n) = [] := by
  unfold checkEntry
  dsimp only
  rw [hfind]
  dsimp only
  rw [if_neg (by simp [hdg])]
  cases hs : lookupSize sizes n with
  | none => simp
  | some sz => simp [hsz sz hs]

theorem verify_of_found (hash : LC → LC) (dir D : List FsFile)
    (hnod : (dir.map FsFile.name).Nodup)
    (hgood : ∀ f ∈ dir, GoodLC f.name)
    (hhash : ∀ bs, GoodLC (hash bs))
    (hcks : findFile D cksName = some ⟨cksName, (create_directory_checksum hash dir).1, 0⟩)
    (hcinf : findFile D cinfName = some ⟨cinfName, (create_directory_checksum hash dir).2, 0⟩)
    (hcov : ∀ f ∈ coveredFiles dir, findFile D f.name = some f) :
    verify_directory_checksum hash D = VerifyOutcome.passed := by
  unfold verify_directory_checksum
  rw [hcks]
  dsimp only
  rw [hcinf]
  dsimp only
  have hents : parseChecksums (create_directory_checksum hash dir).1 =
      checksumEntries hash dir := by
    unfold create_directory_checksum
    refine parseChecksums_encode ?_
    intro e he
    unfold checksumEntries at he
    obtain ⟨f, hf, rfl⟩ := List.mem_map.1 he
    exact ⟨hhash f.content, covered_good hgood f hf⟩
  have hsizes : parseCacheinfo (create_directory_checksum hash dir).2 =
      (coveredFiles dir).map (fun f => (f.name, f.content.length)) := by
    unfold create_directory_checksum
    exact parseCacheinfo_encode (covered_good hgood)
  rw [hents, hsizes]
  have hnil : (checksumEntries hash dir).flatMap
      (checkEntry hash D ((coveredFiles dir).map fun f => (f.name, f.content.length))) = [] := by
    rw [List.flatMap_eq_nil_iff]
    intro e he
    unfold checksumEntries at he
    obtain ⟨f, hf, rfl⟩ := List.mem_map.1 he
    refine checkEntry_eq_nil (hcov f hf) rfl ?_
    intro sz hs
    rw [lookupSize_covered hnod f hf] at hs
    injection hs with h
    exact h.symm
  rw [hnil]
  rfl

theorem findFile_append_fresh {D : List FsFile} {g : FsFile} {n : LC}
    (h : g.name ≠ n) : findFile (D ++ [g]) n = findFile D n := by
  rw [findFile_append]
  cases hf : findFile D n with
  | some x => rfl
  | none =>
    have hg : findFile [g] n = none := by
      unfold findFile
      rw [List.find?_eq_none]
      intro x hx
      simp only [List.mem_singleton] at hx
      subst hx
      simp [h]
    rw [hg]
    rfl

theorem findFile_remove_ne {D : List FsFile} {rm n : LC} (h : n ≠ rm) :
    findFile (removeByName D rm) n = findFile D n := by
  unfold removeByName findFile
  induction D with
  | nil => rfl
  | cons d D ih =>
    rw [List.filter_cons]
    cases hd : (d.name == rm) with
    | true =>
      rw [if_neg (by simp)]
      have hdd : d.name = rm := by simpa using hd
      have hdn : (d.name == n) = false := by
        rw [hdd]
        exact beq_eq_false_iff_ne.mpr (fun hh => h hh.symm)
      rw [List.find?_cons, hdn]
      exact ih
    | false =>
      rw [if_pos (by simp)]
      rw [List.find?_cons, List.find?_cons]
      cases hdn : (d.name == n) with
      | true => rfl
      | false => exact ih

theorem findFile_remove_self (D : List FsFile) (rm : LC) :
    findFile (removeByName D rm) rm = none := by
  unfold removeByName findFile
  rw [List.find?_eq_none]
  intro x hx
  have h2 := (List.mem_filter.1 hx).2
  simp only [Bool.not_eq_true'] at h2
  simp [h2]

theorem flatMap_isolate (g : FsFile → List Diag) {cov : List FsFile} {f0 : FsFile}
    (hnod : (cov.map FsFile.name).Nodup) (hmem : f0 ∈ cov)
    (hrest : ∀ f ∈ cov, f.name ≠ f0.name → g f = []) :
    cov.flatMap g = g f0 := by
  induction cov with
  | nil => cases hmem
  | cons c rest ih =>
    rw [List.flatMap_cons]
    have hnodc : c.name ∉ rest.map FsFile.name ∧ (rest.map FsFile.name).Nodup := by
      rw [List.map_cons, List.nodup_cons] at hnod
      exact hnod
    rcases List.mem_cons.1 hmem with rfl | hmem2
    · have hrestnil : rest.flatMap g = [] := by
        rw [List.flatMap_eq_nil_iff]
        intro f hf
        refine hrest f (List.mem_cons_of_mem _ hf) ?_
        intro heq
        exact hnodc.1 (heq ▸ List.mem_map_of_mem _ hf)
      rw [hrestnil, List.append_nil]
    · have hcnil : g c = [] := by
        refine hrest c (by simp) ?_
        intro heq
        exact hnodc.1 (heq ▸ List.mem_map_of_mem _ hmem2)
      rw [hcnil, List.nil_append]
      exact ih hnodc.2 hmem2 (fun f hf => hrest f (List.mem_cons_of_mem _ hf))

theorem verify_of_missing (hash : LC → LC) (dir D : List FsFile)
    (hnod : (dir.map FsFile.name).Nodup)
    (hgood : ∀ f ∈ dir, GoodLC f.name)
    (hhash : ∀ bs, GoodLC (hash bs))
    (f0 : FsFile) (hf0 : f0 ∈ coveredFiles dir)
    (hcks : findFile D cksName = some ⟨cksName, (create_directory_checksum hash dir).1, 0⟩)
    (hcinf : findFile D cinfName = some ⟨cinfName, (create_directory_checksum hash dir).2, 0⟩)
    (hcov : ∀ f ∈ coveredFiles dir, f.name ≠ f0.name → findFile D f.name = some f)
    (hmiss : findFile D f0.name = none) :
    verify_directory_checksum hash D =
      VerifyOutcome.failed [Diag.missing f0.name] := by
  unfold verify_directory_checksum
  rw [hcks]
  dsimp only
  rw [hcinf]
  dsimp only
  have hents : parseChecksums (create_directory_checksum hash dir).1 =
      checksumEntries hash dir := by
    unfold create_directory_checksum
    refine parseChecksums_encode ?_
    intro e he
    unfold checksumEntries at he
    obtain ⟨f, hf, rfl⟩ := List.mem_map.1 he
    exact ⟨hhash f.content, covered_good hgood f hf⟩
  have hsizes : parseCacheinfo (create_directory_checksum hash dir).2 =
      (coveredFiles dir).map (fun f => (f.name, f.content.length)) := by
    unfold create_directory_checksum
    exact parseCacheinfo_encode (covered_good hgood)
  rw [hents, hsizes]
  have hdiag : (checksumEntries hash dir).flatMap
      (checkEntry hash D ((coveredFiles dir).map fun f => (f.name, f.content.length))) =
      [Diag.missing f0.name] := by
    unfold checksumEntries
    rw [List.flatMap_map]
    have hiso := flatMap_isolate (fun f =>
      checkEntry hash D ((coveredFiles dir).map fun f => (f.name, f.content.length))
        (hash f.content, f.name)) (covered_names_nodup hnod) hf0 ?_
    · rw [hiso]
      unfold checkEntry
      dsimp only
      rw [hmiss]
    · intro f hf hne
      refine checkEntry_eq_nil (hcov f hf hne) rfl ?_
      intro sz hs
      rw [lookupSize_covered hnod f hf] at hs
      injection hs with h
      exact h.symm
  rw [hdiag]
  rfl

/-- C1 (amended): for every directory whose filenames are nonempty
whitespace-free printable ASCII (and pairwise distinct, as on a real
filesystem), and any digest function producing such strings (as
`hexdigest` does), building the manifest pair and immediately verifying the
directory against it succeeds — no `ValidationError` is raised.  The
character restriction is forced by the counterexample: the manifest is a
line-oriented text format and `verify` re-parses it with `strip`/`split`
and the `^(\S+)\s+size=(\d+)` regex, so filenames containing newlines or
boundary whitespace do not round-trip. -/
theorem c1_verify_after_build (hash : LC → LC) (dir : List FsFile)
    (hnod : (dir.map FsFile.name).Nodup)
    (hgood : ∀ f ∈ dir, GoodLC f.name)
    (hhash : ∀ bs, GoodLC (hash bs)) :
    verify_directory_checksum hash (dirAfterBuild hash dir) = VerifyOutcome.passed :=
  verify_of_found hash dir _ hnod hgood hhash (findFile_build_cks hash dir)
    (findFile_build_cinf hash dir) (findFile_build_covered hash hnod)

/-- C1 (counterexample): a directory containing a single file named
`"a\nb"` — a legal POSIX filename.  `create_directory_checksum` writes the
line `00  a\nb`, which `verify_directory_checksum` reads back as a line
naming `a` (plus a junk line `b` that is skipped), so verification right
after building reports `Missing file: a` and raises `ValidationError`,
refuting the claim as stated for arbitrary directories. -/
theorem c1_newline_counterexample :
    verify_directory_checksum constHash
        (dirAfterBuild constHash [⟨lc "a\nb", lc "A", 0⟩]) =
      VerifyOutcome.failed [Diag.missing (lc "a")] := by
  decide

/-- Closed witness for the amended C1: a two-file batch directory. -/
theorem c1_verify_after_build_witness :
    verify_directory_checksum constHash
        (dirAfterBuild constHash [⟨lc "x.zip", lc "ABC", 5⟩, ⟨lc "b.zip", lc "QQ", 7⟩]) =
      VerifyOutcome.passed :=
  c1_verify_after_build constHash _ (by decide) (by decide) (fun _ => (by decide : GoodLC (lc "00")))

/-- C4 (amended): over directories with well-behaved (printable, space-free
ASCII, pairwise distinct) filenames, verification against the built manifest
is a subset check: deleting one covered file makes `verify` report exactly
that file missing — a single `Missing file` diagnostic and nothing else —
while appending any extra file whose name is fresh (not already a directory
entry; in particular absent from the manifest) never makes verification
fail.  The well-behavedness restriction on the deletion half is forced by
the counterexample below. -/
theorem c4_subset_check (hash : LC → LC) (dir : List FsFile)
    (hnod : (dir.map FsFile.name).Nodup)
    (hgood : ∀ f ∈ dir, GoodLC f.name)
    (hhash : ∀ bs, GoodLC (hash bs)) :
    (∀ f ∈ dir, (!(f.name == cksName || f.name == cinfName)) = true →
      verify_directory_checksum hash (removeByName (dirAfterBuild hash dir) f.name) =
        VerifyOutcome.failed [Diag.missing f.name]) ∧
    (∀ g : FsFile, (∀ f2 ∈ dirAfterBuild hash dir, f2.name ≠ g.name) →
      verify_directory_checksum hash (dirAfterBuild hash dir ++ [g]) =
        VerifyOutcome.passed) := by
  constructor
  · intro f hmem hnotm
    have hf : f ∈ coveredFiles dir := mem_covered hmem hnotm
    have hnotm2 : (f.name == cksName) = false ∧ (f.name == cinfName) = false := by
      simpa [Bool.or_eq_false_iff] using hnotm
    have h1 : cksName ≠ f.name := by
      intro hh
      rw [← hh] at hnotm2
      simp at hnotm2
    have h2 : cinfName ≠ f.name := by
      intro hh
      rw [← hh] at hnotm2
      simp at hnotm2
    refine verify_of_missing hash dir _ hnod hgood hhash f hf ?_ ?_ ?_ ?_
    · rw [findFile_remove_ne h1]
      exact findFile_build_cks hash dir
    · rw [findFile_remove_ne h2]
      exact findFile_build_cinf hash dir
    · intro f2 hf2 hne
      rw [findFile_remove_ne hne]
      exact findFile_build_covered hash hnod f2 hf2
    · exact findFile_remove_self _ _
  · intro g hfresh
    have hcksmem : (⟨cksName, (create_directory_checksum hash dir).1, 0⟩ : FsFile) ∈
        dirAfterBuild hash dir := by
      unfold dirAfterBuild
      exact List.mem_append_right _ (by simp)
    have hcinfmem : (⟨cinfName, (create_directory_checksum hash dir).2, 0⟩ : FsFile) ∈
        dirAfterBuild hash dir := by
      unfold dirAfterBuild
      exact List.mem_append_right _ (by simp)
    refine verify_of_found hash dir _ hnod hgood hhash ?_ ?_ ?_
    · rw [findFile_append_fresh (fun hh => hfresh _ hcksmem hh.symm)]
      exact findFile_build_cks hash dir
    · rw [findFile_append_fresh (fun hh => hfresh _ hcinfmem hh.symm)]
      exact findFile_build_cinf hash dir
    · intro f2 hf2
      have hmem2 : f2 ∈ dirAfterBuild hash dir := by
        unfold dirAfterBuild
        exact List.mem_append_left _
          (List.mem_filter.2 ⟨(covered_mem hf2).1, (covered_mem hf2).2⟩)
      rw [findFile_append_fresh (fun hh => hfresh f2 hmem2 hh.symm)]
      exact findFile_build_covered hash hnod f2 hf2

/-- C4 (counterexample): in a directory holding files `"a\nb"` and `"c"`,
deleting the covered file `"c"` makes `verify` report two missing files —
`a` (an artifact of the newline filename breaking the manifest line format)
and `c` — not "exactly that file" as the claim states for every directory
and manifest. -/
theorem c4_two_missing_counterexample :
    verify_directory_checksum constHash
        (removeByName
          (dirAfterBuild constHash [⟨lc "a\nb", lc "A", 0⟩, ⟨lc "c", lc "B", 0⟩])
          (lc "c")) =
      VerifyOutcome.failed [Diag.missing (lc "a"), Diag.missing (lc "c")] := by
  decide

/-- Closed witness for the amended C4: deleting `b.zip` from a built
two-file directory yields exactly its missing-file diagnostic; adding a
fresh `zzz` file leaves verification passing. -/
theorem c4_subset_check_witness :
    verify_directory_checksum constHash
        (removeByName
          (dirAfterBuild constHash [⟨lc "x.zip", lc "ABC", 5⟩, ⟨lc "b.zip", lc "QQ", 7⟩])
          (lc "b.zip")) =
      VerifyOutcome.failed [Diag.missing (lc "b.zip")] ∧
    verify_directory_checksum constHash
        (dirAfterBuild constHash [⟨lc "x.zip", lc "ABC", 5⟩, ⟨lc "b.zip", lc "QQ", 7⟩] ++
          [⟨lc "zzz", lc "W", 1⟩]) =
      VerifyOutcome.passed := by
  constructor
  · exact (c4_subset_check constHash
      [⟨lc "x.zip", lc "ABC", 5⟩, ⟨lc "b.zip", lc "QQ", 7⟩]
      (by decide) (by decide) (fun _ => (by decide : GoodLC (lc "00")))).1
      ⟨lc "b.zip", lc "QQ", 7⟩ (by decide) (by decide)
  · exact (c4_subset_check constHash
      [⟨lc "x.zip", lc "ABC", 5⟩, ⟨lc "b.zip", lc "QQ", 7⟩]
      (by decide) (by decide) (fun _ => (by decide : GoodLC (lc "00")))).2
      ⟨lc "zzz", lc "W", 1⟩ (by decide)
